import Mathlib

/-
  Verification development for `automation_hub_gather_minimal_ansible_version.py`.

  The script walks the Automation Hub catalog (two channels), normalizes each
  collection's `requires_ansible` constraint string to a "major.minor" bucket
  key, aggregates entries per bucket, prints one console line per record and
  optionally writes a spreadsheet.  The definitions below are a shallow
  embedding of the relevant parts of that script; theorems settle the frozen
  claims about it.
-/

set_option autoImplicit false

namespace AutomationHub

/- ### Decimal rendering of natural numbers

  Models Python's `str(int)` / f-string rendering of a non-negative integer:
  the usual base-10 numeral.  `decCharsF` is fuel-based so that it is
  structurally recursive (fuel `n + 1` always suffices since `n / 10 < n`
  for `n ≥ 10`). -/

def digitChar (d : Nat) : Char := Char.ofNat (48 + d)

def decCharsF : Nat → Nat → List Char
  | 0, _ => []
  | f + 1, n => if n < 10 then [digitChar n] else decCharsF f (n / 10) ++ [digitChar (n % 10)]

def decChars (n : Nat) : List Char := decCharsF (n + 1) n

def decStr (n : Nat) : String := String.mk (decChars n)

def digitVal (c : Char) : Nat := c.toNat - 48

def digitsToNat (cs : List Char) : Nat := cs.foldl (fun a c => 10 * a + digitVal c) 0

/- ### The two regex substitutions of line 243

  Line 243 of the script computes
  `Version(re.sub(',[0-9.]+', '', re.sub('>=|<=|>|<|,[0-9.]+', '', s)))`.

  `sub1S` embeds `re.sub('>=|<=|>|<|,[0-9.]+', '', s)`: a left-to-right scan
  deleting every non-overlapping leftmost match, alternatives tried in order,
  `+` greedy.  The Boolean state `skip` is true while the scanner is inside
  the `[0-9.]+` run of a matched `,[0-9.]+` alternative (this makes the
  function structurally recursive); on the first character that is not in
  `[0-9.]` the scan resumes in normal mode, exactly as the regex engine
  resumes after the end of a greedy match. -/

def isVerChar (c : Char) : Bool := c.isDigit || c == '.'

def sub1S : Bool → List Char → List Char
  | _, [] => []
  | skip, [c] =>
    if skip && isVerChar c then []
    else if c == '>' || c == '<' then []
    else [c]
  | skip, c :: c2 :: r =>
    if skip && isVerChar c then sub1S true (c2 :: r)
    else if c == '>' || c == '<' then
      (if c2 == '=' then sub1S false r else sub1S false (c2 :: r))
    else if c == ',' then
      (if isVerChar c2 then sub1S true (c2 :: r) else c :: sub1S false (c2 :: r))
    else c :: sub1S false (c2 :: r)

def sub1 (cs : List Char) : List Char := sub1S false cs

/-- Embeds the outer `re.sub(',[0-9.]+', '', s)` of line 243. -/
def sub2S : Bool → List Char → List Char
  | _, [] => []
  | skip, [c] =>
    if skip && isVerChar c then [] else [c]
  | skip, c :: c2 :: r =>
    if skip && isVerChar c then sub2S true (c2 :: r)
    else if c == ',' then
      (if isVerChar c2 then sub2S true (c2 :: r) else c :: sub2S false (c2 :: r))
    else c :: sub2S false (c2 :: r)

def sub2 (cs : List Char) : List Char := sub2S false cs

/- ### The version parser: `packaging.version.Version` (imported on line 28)

  `pep440Parse` embeds the acceptance and the release segment of
  `packaging.version.Version`: the anchored, case-insensitive PEP 440
  pattern `\s* v? ([0-9]+!)? release pre? post? dev? local? \s*` with
  release `[0-9]+(\.[0-9]+)*`,
  pre `[-_\.]?(alpha|a|b|beta|c|pre|preview|rc)[-_\.]?[0-9]*`,
  post `(-[0-9]+ | [-_\.]?(post|rev|r)[-_\.]?[0-9]*)`,
  dev `[-_\.]?dev[-_\.]?[0-9]*` and
  local `\+[a-z0-9]+([-_\.][a-z0-9]+)*`.
  The regex engine's greedy matching with backtracking is realized
  deterministically: every digit run and the release segment are
  maximal-munch (after a maximal run the next character is not a digit,
  and no following pattern element starts with a digit, so shortening a
  run can never help); the letter keywords are matched longest-first (a
  shorter overlapping alternative such as `b` for `beta` leaves a tail
  `eta...` that no continuation accepts); the optional separators are
  consumed greedily (each later group carries its own optional leading
  separator, and no keyword starts with a separator character).  Letters
  and whitespace are ASCII, which covers every string this program can
  feed the parser.  On success the numeric release components are
  returned — both `Version` attributes the script reads (`major`,
  `minor`) derive from them; `none` models the `InvalidVersion`
  exception. -/

def isSepChar (c : Char) : Bool := c == '-' || c == '_' || c == '.'

def isAlnumLow (c : Char) : Bool := c.isDigit || c.isLower

def dropOneSep (cs : List Char) : List Char :=
  match cs with
  | c :: r => if isSepChar c then r else c :: r
  | [] => []

/-- Match a literal keyword at the head, returning the rest. -/
def dropKw : List Char → List Char → Option (List Char)
  | [], cs => some cs
  | _ :: _, [] => none
  | k :: ks, c :: cs => if k == c then dropKw ks cs else none

/-- First keyword of the list matching at the head (the lists below are
  ordered longest-first where one keyword is a prefix of another). -/
def kwTail : List (List Char) → List Char → Option (List Char)
  | [], _ => none
  | k :: ks, cs =>
    match dropKw k cs with
    | some r => some r
    | none => kwTail ks cs

def preKws : List (List Char) :=
  [['p','r','e','v','i','e','w'], ['a','l','p','h','a'], ['b','e','t','a'],
   ['p','r','e'], ['r','c'], ['a'], ['b'], ['c']]

def postKws : List (List Char) := [['p','o','s','t'], ['r','e','v'], ['r']]

def devKws : List (List Char) := [['d','e','v']]

/-- After a matched keyword: the optional separator and the optional
  numeral. -/
def groupNumTail (cs : List Char) : List Char :=
  (dropOneSep cs).dropWhile Char.isDigit

/-- An optional `[-_\.]? keyword [-_\.]? [0-9]*` group: the rest after the
  group when it matches, the input unchanged when it does not. -/
def parseOptGroup (kws : List (List Char)) (cs : List Char) : List Char :=
  match cs with
  | [] => []
  | c :: r =>
    if isSepChar c then
      match kwTail kws r with
      | some rest => groupNumTail rest
      | none => c :: r
    else
      match kwTail kws (c :: r) with
      | some rest => groupNumTail rest
      | none => c :: r

/-- The post-release group, whose first alternative is the bare `-[0-9]+`
  form. -/
def parsePost (cs : List Char) : List Char :=
  match cs with
  | '-' :: c2 :: r =>
    if c2.isDigit then (c2 :: r).dropWhile Char.isDigit
    else parseOptGroup postKws ('-' :: c2 :: r)
  | _ => parseOptGroup postKws cs

/-- The local-version label after `+`: non-empty alphanumeric runs joined
  by single separators. -/
def localLabelF : Nat → List Char → Bool
  | 0, _ => false
  | f + 1, cs =>
    if cs.takeWhile isAlnumLow = [] then false
    else
      match cs.dropWhile isAlnumLow with
      | [] => true
      | c :: rest => isSepChar c && localLabelF f rest

def parseLocal (cs : List Char) : Bool :=
  match cs with
  | [] => true
  | '+' :: r => localLabelF (r.length + 1) r
  | _ => false

def dropV (cs : List Char) : List Char :=
  match cs with
  | c :: r => if c == 'v' then r else c :: r
  | [] => []

/-- The optional `[0-9]+!` epoch (the digit run before `!` is exactly the
  maximal one, since `!` is not a digit). -/
def dropEpoch (cs : List Char) : List Char :=
  match cs.dropWhile Char.isDigit with
  | c :: r => if c == '!' && !(cs.takeWhile Char.isDigit).isEmpty then r else cs
  | [] => cs

/-- The `(\.[0-9]+)*` tail of the release segment, maximal-munch; fuel
  `length` suffices since every step consumes at least two characters. -/
def parseDotGroupsF : Nat → List Char → List Nat × List Char
  | 0, cs => ([], cs)
  | f + 1, cs =>
    match cs with
    | '.' :: rest =>
      if rest.takeWhile Char.isDigit = [] then ([], cs)
      else
        let pr := parseDotGroupsF f (rest.dropWhile Char.isDigit)
        (digitsToNat (rest.takeWhile Char.isDigit) :: pr.1, pr.2)
    | _ => ([], cs)

def parseDotGroups (cs : List Char) : List Nat × List Char :=
  parseDotGroupsF cs.length cs

def stripWs (cs : List Char) : List Char :=
  ((cs.dropWhile Char.isWhitespace).reverse.dropWhile Char.isWhitespace).reverse

def pep440Parse (cs0 : List Char) : Option (List Nat) :=
  let cs := dropV (stripWs (cs0.map Char.toLower))
  let csE := dropEpoch cs
  if csE.takeWhile Char.isDigit = [] then none
  else
    let pr := parseDotGroups (csE.dropWhile Char.isDigit)
    let rest3 := parseOptGroup devKws (parsePost (parseOptGroup preKws pr.2))
    if parseLocal rest3 then
      some (digitsToNat (csE.takeWhile Char.isDigit) :: pr.1)
    else
      none

/-- Helper for `specDottedNumeric`: split on the dots. -/
def splitDot : List Char → List (List Char)
  | [] => [[]]
  | c :: r =>
    if c == '.' then [] :: splitDot r
    else (c :: (splitDot r).headD []) :: (splitDot r).tail

/-- The validity notion the spec and claim C6 quote — a "dotted-numeric
  version" `N(.N)*` — stated from the claim's words (not from the source)
  in order to compare it against what the program's parser actually
  accepts. -/
def specDottedNumeric (cs : List Char) : Bool :=
  (splitDot cs).all (fun s => decide (s ≠ []) && s.all Char.isDigit)

/-- Embeds lines 243 and 245 of the script:
  `ansible_version = Version(re.sub(',[0-9.]+', '', re.sub('>=|<=|>|<|,[0-9.]+', '', s)))`
  followed by the f-string on `ansible_version.major` and
  `ansible_version.minor` (`release[0]`, and `release[1]` when present, else
  `0`, exactly as `packaging` defines `major` and `minor`).  `none` models an
  uncaught `InvalidVersion` exception. -/
def ansible_minor_version (requires_ansible : String) : Option String :=
  match pep440Parse (sub2 (sub1 requires_ansible.data)) with
  | none => none
  | some rel => some (decStr (rel.headD 0) ++ "." ++ decStr (rel.getD 1 0))

/- ### Shape of the constraint strings of the spec

  `op1 major.minor[.patch][,op2 major2.minor2[.patch2]]` with the comparison
  operator drawn from `>=`, `<=`, `>`, `<`. -/

inductive CompOp where
  | ge
  | le
  | gt
  | lt
deriving DecidableEq

def opChars : CompOp → List Char
  | .ge => ['>', '=']
  | .le => ['<', '=']
  | .gt => ['>']
  | .lt => ['<']

def versionToken (M m : Nat) (p : Option Nat) : List Char :=
  match p with
  | none => decChars M ++ '.' :: decChars m
  | some k => decChars M ++ '.' :: (decChars m ++ '.' :: decChars k)

def clauseChars (o : CompOp) (M m : Nat) (p : Option Nat) : List Char :=
  opChars o ++ versionToken M m p

/-- A constraint string `op1 M.m[.p][,op2 M2.m2[.p2]]`, the second clause
  optional. -/
def constraintString (o1 : CompOp) (M m : Nat) (p : Option Nat)
    (sc : Option (CompOp × Nat × Nat × Option Nat)) : String :=
  match sc with
  | none => String.mk (clauseChars o1 M m p)
  | some q => String.mk (clauseChars o1 M m p ++ ',' :: clauseChars q.1 q.2.1 q.2.2.1 q.2.2.2)

/- ### The API client: `query_api` (lines 52-153)

  The transport layer (the `requests` library) is abstracted: a call either
  yields a response (an HTTP status code together with the JSON-parsed body,
  over an abstract body type `β`) or fails with one of the transport
  exceptions that the `try`/`except` block of lines 102-146 distinguishes.
  The `requests` library itself never raises `HTTPError` for a non-2xx
  status; only an explicit `raise_for_status()` call would. -/

inductive HttpRequestType where
  | GET
  | POST
  | PUT
  | DELETE
deriving DecidableEq

inductive TransportOutcome (β : Type) where
  | received (status : Nat) (body : β)
  | connectionError
  | timeoutError
  | requestError
deriving DecidableEq

inductive QueryError where
  | valueError
  | httpError (status : Nat)
  | connectionError
  | timeout
  | requestFailure
  | runtimeError (status : Nat)
deriving DecidableEq

/-- Embeds `query_api` (lines 52-153).  The argument checks of lines 81-92
  come first (`None` request type or empty location raise `ValueError`); then
  the request is issued.  Line 126 is `return response.json()`: it runs
  before `response.raise_for_status()` on line 127, so when a response was
  received the parsed body is returned no matter what the status code is —
  the `HTTPError` re-raise of lines 128-131 and the `response.ok` check of
  lines 148-150 (`RuntimeError` carrying the status code) are unreachable.
  The `except` arms of lines 132-146 map the transport failures. -/
def query_api {β : Type} (http_request_type : Option HttpRequestType)
    (location : String) (outcome : TransportOutcome β) : Except QueryError β :=
  match http_request_type with
  | none => .error .valueError
  | some _ =>
    if location = "" then .error .valueError
    else
      match outcome with
      | .received _ body => .ok body
      | .connectionError => .error .connectionError
      | .timeoutError => .error .timeout
      | .requestError => .error .requestFailure

/- ### The catalog walker: the pagination loop of lines 232-281

  One channel's `while True:` loop: fetch the page at the current href,
  process `result['data']` in order, stop when `result['links']['next']` is
  `None`, otherwise continue from that next href.  A page is its item list
  (over an abstract item type `α`) together with the optional next cursor;
  the server is a map from hrefs to pages, `none` modelling a fetch failure
  (a `query_api` exception, which aborts the walk).  `walkPages` carries a
  fuel bound so that it is executable; any fuel at least the chain length
  gives the loop's exact behaviour. -/

structure Page (α : Type) where
  data : List α
  next : Option String
deriving DecidableEq

def walkPages {α : Type} (fetch : String → Option (Page α)) :
    Nat → String → Option (List α)
  | 0, _ => none
  | fuel + 1, href =>
    match fetch href with
    | none => none
    | some page =>
      match page.next with
      | none => some page.data
      | some nexthref =>
        match walkPages fetch fuel nexthref with
        | none => none
        | some rest => some (page.data ++ rest)

/-- A finite cursor chain `c0 → c1 → ... → cN = null`: fetching `href` yields
  the pages in order, each page's `next` cursor naming where the following
  page is fetched, the last page's `next` cursor being null. -/
inductive PageChain {α : Type} (fetch : String → Option (Page α)) :
    String → List (Page α) → Prop where
  | last (href : String) (p : Page α) :
      fetch href = some p → p.next = none → PageChain fetch href [p]
  | step (href : String) (p : Page α) (href2 : String) (ps : List (Page α)) :
      fetch href = some p → p.next = some href2 → PageChain fetch href2 ps →
      PageChain fetch href (p :: ps)

/-- A concrete two-page channel used to witness the walker theorem. -/
def fetchEx : String → Option (Page Nat) := fun href =>
  if href = "page0" then some ⟨[1, 2], some "page1"⟩
  else if href = "page1" then some ⟨[3], none⟩
  else none

/- ### The aggregator: `ansible_versions` (lines 223, 247-262)

  The script keeps a dict from the `"major.minor"` bucket key to
  `{'collections': [...]}`, each list element being
  `{'name': fqcn, 'download_count': n}`.  The dict is modelled as an
  association list in insertion order; `record` embeds lines 247-262: if the
  bucket key is present, append the entry to that bucket's list, otherwise
  create the bucket holding the one-element list (dict insertion appends the
  new key at the end). -/

structure CollectionEntry where
  name : String
  download_count : Nat
deriving DecidableEq

def record (buckets : List (String × List CollectionEntry)) (key : String)
    (e : CollectionEntry) : List (String × List CollectionEntry) :=
  match buckets with
  | [] => [(key, [e])]
  | (k, es) :: rest =>
    if k = key then (k, es ++ [e]) :: rest else (k, es) :: record rest key e

/-- Lines 229-281 as seen by the aggregator: fold `record` over the stream of
  processed records (bucket key paired with its entry) in arrival order. -/
def processRecords (recs : List (String × CollectionEntry)) :
    List (String × List CollectionEntry) :=
  recs.foldl (fun bs r => record bs r.1 r.2) []

def totalCount (bs : List (String × List CollectionEntry)) : Nat :=
  (bs.map (fun p => p.2.length)).sum

/-- The list stored under a bucket key (first match; keys are unique since
  a bucket is only ever created when its key is absent). -/
def bucket (bs : List (String × List CollectionEntry)) (key : String) :
    List CollectionEntry :=
  match bs with
  | [] => []
  | (k, es) :: rest => if k = key then es else bucket rest key

/- ### Console output: line 273

  Line 273 is `pprint(f"collection {fqcn} (#{dc} downloads): -> {ver}")`.
  `pprint` prints the pretty-printed *repr* of its argument; for a short
  string containing no single quote, no backslash and no unprintable
  character (always the case for these record lines) that repr is the string
  wrapped in single quotes.  `singleQuote` is the one-character string
  holding the apostrophe (code point 39). -/

def singleQuote : String := String.mk [Char.ofNat 39]

def recordLineBody (fqcn : String) (download_count : Nat) (minor : String) : String :=
  "collection " ++ fqcn ++ " (#" ++ decStr download_count ++ " downloads): -> " ++ minor

def pprintLine (fqcn : String) (download_count : Nat) (minor : String) : String :=
  singleQuote ++ recordLineBody fqcn download_count minor ++ singleQuote

/-- One console line is emitted per processed record, in stream order. -/
def emittedLines (rs : List (String × Nat × String)) : List String :=
  rs.map (fun r => pprintLine r.1 r.2.1 r.2.2)

/- ### Workbook clearing: lines 202-210

  With `write_workbook` set, `clear_workbook` triggers `os.remove` inside a
  `try`/`except OSError` whose handler re-raises unless
  `oserror_exception.errno == errno.ENOENT`.  The filesystem interaction is
  abstracted as the outcome of the removal attempt: success, or an `OSError`
  carrying an errno. -/

inductive RemoveOutcome where
  | removed
  | oserror (errnoCode : Nat)
deriving DecidableEq

/-- `errno.ENOENT` (no such file or directory). -/
def ENOENT : Nat := 2

/-- Embeds lines 205-210: attempt the removal; an `OSError` whose errno is
  not `ENOENT` propagates (`.error`), otherwise the run proceeds
  (`.ok ()`). -/
def clearWorkbookStep (outcome : RemoveOutcome) : Except Nat Unit :=
  match outcome with
  | .removed => .ok ()
  | .oserror e => if e ≠ ENOENT then .error e else .ok ()

/-- The removal outcome as a function of whether the destination file
  exists: removing an absent file raises `OSError` with `errno.ENOENT`. -/
def removeFile (fileExists : Bool) : RemoveOutcome :=
  if fileExists then .removed else .oserror ENOENT

/- ### The worksheet: lines 212-221 and 264-271

  A cell write is `(column, row, value)`.  The header row (row 1) writes
  columns 1-4 and, only when `ignore_authors` is false, column 5; each data
  row likewise.  `RecordRow` carries the per-record values written. -/

structure RecordRow where
  fqcn : String
  repo : String
  minor : String
  download_count : Nat
  authors : String
deriving DecidableEq

/-- Embeds lines 214-221: the header cells written to row 1. -/
def headerCells (ignore_authors : Bool) : List (Nat × String) :=
  [(1, "Collection Name"), (2, "Repository"), (3, "Ansible Version"), (4, "Downloads")] ++
    (if ignore_authors then [] else [(5, "Authors")])

/-- Embeds lines 264-271: the cells written for one data row. -/
def rowCells (ignore_authors : Bool) (r : RecordRow) : List (Nat × String) :=
  [(1, r.fqcn), (2, r.repo), (3, r.minor), (4, decStr r.download_count)] ++
    (if ignore_authors then [] else [(5, r.authors)])

def dataCells (ignore_authors : Bool) : Nat → List RecordRow → List (Nat × Nat × String)
  | _, [] => []
  | row, r :: rest =>
    (rowCells ignore_authors r).map (fun p => (p.1, row, p.2)) ++
      dataCells ignore_authors (row + 1) rest

/-- All cells the run writes: the header at row 1, then one data row per
  record starting at row 2 (line 226: `row = 2`). -/
def sheetCells (ignore_authors : Bool) (rs : List RecordRow) : List (Nat × Nat × String) :=
  (headerCells ignore_authors).map (fun p => (p.1, 1, p.2)) ++ dataCells ignore_authors 2 rs

/- ### The CLI flags: lines 168-177 and 202-210

  `--clear-workbook` is declared `action='store_true'` with `default=True`:
  the parsed value is `True` when the flag is passed and the default — also
  `True` — when it is not.  `--no-workbook` is `store_false` with
  `default=True`. -/

def storeTrue (dflt : Bool) (flagPresent : Bool) : Bool :=
  if flagPresent then true else dflt

/-- The parsed `args.clear_workbook` as a function of whether
  `--clear-workbook` was passed on the command line. -/
def clear_workbook (flagPresent : Bool) : Bool := storeTrue true flagPresent

/-- Embeds lines 202-210's guard structure: the removal is attempted exactly
  when the workbook is written and `args.clear_workbook` is set. -/
def attemptsRemove (write_workbook : Bool) (clearFlagPresent : Bool) : Bool :=
  write_workbook && clear_workbook clearFlagPresent

/- ### Facts about decimal rendering -/

theorem digitChar_isDigit : ∀ d : Nat, d < 10 → (digitChar d).isDigit = true := by decide

theorem digitVal_digitChar : ∀ d : Nat, d < 10 → digitVal (digitChar d) = d := by decide

theorem decCharsF_isDigit : ∀ f n : Nat, n < f → ∀ c ∈ decCharsF f n, c.isDigit = true := by
  intro f
  induction f with
  | zero => intro n h; omega
  | succ f ih =>
    intro n h c hc
    by_cases h10 : n < 10
    · simp [decCharsF, h10] at hc
      exact hc ▸ digitChar_isDigit n h10
    · simp [decCharsF, h10] at hc
      rcases hc with hc | hc
      · have hdiv : n / 10 < f := by
          have := Nat.div_lt_self (show 0 < n by omega) (show 1 < 10 by norm_num)
          omega
        exact ih (n / 10) hdiv c hc
      · exact hc ▸ digitChar_isDigit (n % 10) (Nat.mod_lt _ (by norm_num))

theorem digitsToNat_decCharsF : ∀ f n : Nat, n < f → digitsToNat (decCharsF f n) = n := by
  intro f
  induction f with
  | zero => intro n h; omega
  | succ f ih =>
    intro n h
    by_cases h10 : n < 10
    · simp [decCharsF, h10, digitsToNat]
      exact digitVal_digitChar n h10
    · have hdiv : n / 10 < f := by
        have := Nat.div_lt_self (show 0 < n by omega) (show 1 < 10 by norm_num)
        omega
      have hmod := digitVal_digitChar (n % 10) (Nat.mod_lt _ (by norm_num))
      simp [decCharsF, h10, digitsToNat, List.foldl_append]
      show 10 * digitsToNat (decCharsF f (n / 10)) + digitVal (digitChar (n % 10)) = n
      rw [ih (n / 10) hdiv, hmod]
      omega

theorem decChars_isDigit (n : Nat) : ∀ c ∈ decChars n, c.isDigit = true :=
  decCharsF_isDigit (n + 1) n (Nat.lt_succ_self n)

theorem digitsToNat_decChars (n : Nat) : digitsToNat (decChars n) = n :=
  digitsToNat_decCharsF (n + 1) n (Nat.lt_succ_self n)

theorem decChars_ne_nil (n : Nat) : decChars n ≠ [] := by
  by_cases h10 : n < 10 <;> simp [decChars, decCharsF, h10]

theorem decCharsF_mem : ∀ f n : Nat, n < f → ∀ c ∈ decCharsF f n,
    ∃ d, d < 10 ∧ c = digitChar d := by
  intro f
  induction f with
  | zero => intro n h; omega
  | succ f ih =>
    intro n h c hc
    by_cases h10 : n < 10
    · simp [decCharsF, h10] at hc
      exact ⟨n, h10, hc⟩
    · simp [decCharsF, h10] at hc
      rcases hc with hc | hc
      · have hdiv : n / 10 < f := by
          have := Nat.div_lt_self (show 0 < n by omega) (show 1 < 10 by norm_num)
          omega
        exact ih (n / 10) hdiv c hc
      · exact ⟨n % 10, Nat.mod_lt _ (by norm_num), hc⟩

theorem decChars_mem (n : Nat) : ∀ c ∈ decChars n, ∃ d, d < 10 ∧ c = digitChar d :=
  decCharsF_mem (n + 1) n (Nat.lt_succ_self n)

theorem digitChar_facts : ∀ d : Nat, d < 10 →
    Char.toLower (digitChar d) = digitChar d ∧
    (digitChar d).isWhitespace = false ∧
    (digitChar d == 'v') = false := by
  decide

/- ### Character classification facts -/

theorem isVerChar_of_isDigit {c : Char} (h : c.isDigit = true) : isVerChar c = true := by
  simp [isVerChar, h]

theorem digit_not_special {c : Char} (h : c.isDigit = true) :
    (c == '>') = false ∧ (c == '<') = false ∧ (c == ',') = false ∧
    (c == '=') = false ∧ (c == '.') = false := by
  refine ⟨?_, ?_, ?_, ?_, ?_⟩ <;>
    [by_cases hc : c = '>'; by_cases hc : c = '<'; by_cases hc : c = ',';
     by_cases hc : c = '='; by_cases hc : c = '.'] <;>
    first
      | (subst hc; revert h; decide)
      | simp [hc]

theorem isVerChar_elim {c : Char} (h : isVerChar c = true) :
    (c == '>') = false ∧ (c == '<') = false ∧ (c == ',') = false ∧ (c == '=') = false := by
  have hcase : c.isDigit = true ∨ (c == '.') = true := by
    simpa [isVerChar] using h
  rcases hcase with hd | hdot
  · obtain ⟨h1, h2, h3, h4, _⟩ := digit_not_special hd
    exact ⟨h1, h2, h3, h4⟩
  · have : c = '.' := by simpa using hdot
    subst this
    decide

/- ### Step lemmas for the substitution scans -/

theorem sub1S_false_cons_plain (c : Char) (r : List Char)
    (h1 : (c == '>') = false) (h2 : (c == '<') = false) (h3 : (c == ',') = false) :
    sub1S false (c :: r) = c :: sub1S false r := by
  cases r with
  | nil => simp [sub1S, h1, h2, h3]
  | cons c2 t => simp [sub1S, h1, h2, h3]

theorem sub1S_true_cons_ver (c : Char) (r : List Char) (h : isVerChar c = true) :
    sub1S true (c :: r) = sub1S true r := by
  cases r with
  | nil => simp [sub1S, h]
  | cons c2 t => simp [sub1S, h]

theorem sub1S_false_verpass (v rest : List Char) (hv : ∀ c ∈ v, isVerChar c = true) :
    sub1S false (v ++ rest) = v ++ sub1S false rest := by
  induction v with
  | nil => simp
  | cons c v ih =>
    obtain ⟨h1, h2, h3, _⟩ := isVerChar_elim (hv c (List.mem_cons_self c v))
    rw [List.cons_append, sub1S_false_cons_plain c _ h1 h2 h3,
      ih (fun x hx => hv x (List.mem_cons_of_mem c hx)), List.cons_append]

theorem sub1S_true_verdrop (v rest : List Char) (hv : ∀ c ∈ v, isVerChar c = true) :
    sub1S true (v ++ rest) = sub1S true rest := by
  induction v with
  | nil => simp
  | cons c v ih =>
    rw [List.cons_append, sub1S_true_cons_ver c _ (hv c (List.mem_cons_self c v)),
      ih (fun x hx => hv x (List.mem_cons_of_mem c hx))]

theorem sub1S_false_comma_ver (c2 : Char) (r : List Char) (h : isVerChar c2 = true) :
    sub1S false (',' :: c2 :: r) = sub1S true (c2 :: r) := by
  simp [sub1S, h]

theorem sub1S_false_comma_nonver (c2 : Char) (r : List Char) (h : isVerChar c2 = false) :
    sub1S false (',' :: c2 :: r) = ',' :: sub1S false (c2 :: r) := by
  simp [sub1S, h]

theorem sub2S_false_cons_plain (c : Char) (r : List Char) (h3 : (c == ',') = false) :
    sub2S false (c :: r) = c :: sub2S false r := by
  cases r with
  | nil => simp [sub2S, h3]
  | cons c2 t => simp [sub2S, h3]

theorem sub2S_true_cons_ver (c : Char) (r : List Char) (h : isVerChar c = true) :
    sub2S true (c :: r) = sub2S true r := by
  cases r with
  | nil => simp [sub2S, h]
  | cons c2 t => simp [sub2S, h]

theorem sub2S_false_verpass (v rest : List Char) (hv : ∀ c ∈ v, isVerChar c = true) :
    sub2S false (v ++ rest) = v ++ sub2S false rest := by
  induction v with
  | nil => simp
  | cons c v ih =>
    obtain ⟨_, _, h3, _⟩ := isVerChar_elim (hv c (List.mem_cons_self c v))
    rw [List.cons_append, sub2S_false_cons_plain c _ h3,
      ih (fun x hx => hv x (List.mem_cons_of_mem c hx)), List.cons_append]

theorem sub2S_true_verdrop (v rest : List Char) (hv : ∀ c ∈ v, isVerChar c = true) :
    sub2S true (v ++ rest) = sub2S true rest := by
  induction v with
  | nil => simp
  | cons c v ih =>
    rw [List.cons_append, sub2S_true_cons_ver c _ (hv c (List.mem_cons_self c v)),
      ih (fun x hx => hv x (List.mem_cons_of_mem c hx))]

theorem sub2S_false_comma_ver (c2 : Char) (r : List Char) (h : isVerChar c2 = true) :
    sub2S false (',' :: c2 :: r) = sub2S true (c2 :: r) := by
  simp [sub2S, h]

theorem versionToken_ver (M m : Nat) (p : Option Nat) :
    ∀ c ∈ versionToken M m p, isVerChar c = true := by
  cases p with
  | none =>
    intro c hc
    simp [versionToken] at hc
    rcases hc with hc | hc | hc
    · exact isVerChar_of_isDigit (decChars_isDigit M c hc)
    · subst hc; decide
    · exact isVerChar_of_isDigit (decChars_isDigit m c hc)
  | some k =>
    intro c hc
    simp [versionToken] at hc
    rcases hc with hc | hc | hc | hc | hc
    · exact isVerChar_of_isDigit (decChars_isDigit M c hc)
    · subst hc; decide
    · exact isVerChar_of_isDigit (decChars_isDigit m c hc)
    · subst hc; decide
    · exact isVerChar_of_isDigit (decChars_isDigit k c hc)

theorem versionToken_ne_nil (M m : Nat) (p : Option Nat) : versionToken M m p ≠ [] := by
  cases p <;> simp [versionToken]

/- ### List scanning helpers -/

theorem list_map_self {α : Type} (f : α → α) (v : List α) (h : ∀ c ∈ v, f c = c) :
    v.map f = v := by
  induction v with
  | nil => rfl
  | cons c r ih =>
    simp [h c (List.mem_cons_self c r), ih (fun x hx => h x (List.mem_cons_of_mem c hx))]

theorem takeWhile_append_all {α : Type} (p : α → Bool) (a b : List α)
    (h : ∀ c ∈ a, p c = true) :
    (a ++ b).takeWhile p = a ++ b.takeWhile p := by
  induction a with
  | nil => simp
  | cons c r ih =>
    simp [List.takeWhile_cons, h c (List.mem_cons_self c r),
      ih (fun x hx => h x (List.mem_cons_of_mem c hx))]

theorem dropWhile_append_all {α : Type} (p : α → Bool) (a b : List α)
    (h : ∀ c ∈ a, p c = true) :
    (a ++ b).dropWhile p = b.dropWhile p := by
  induction a with
  | nil => simp
  | cons c r ih =>
    simp [List.dropWhile_cons, h c (List.mem_cons_self c r),
      ih (fun x hx => h x (List.mem_cons_of_mem c hx))]

theorem takeWhile_all_true {α : Type} (p : α → Bool) (a : List α)
    (h : ∀ c ∈ a, p c = true) : a.takeWhile p = a := by
  have hx := takeWhile_append_all p a [] h
  simpa using hx

theorem dropWhile_all_true {α : Type} (p : α → Bool) (a : List α)
    (h : ∀ c ∈ a, p c = true) : a.dropWhile p = [] := by
  have hx := dropWhile_append_all p a [] h
  simpa using hx

theorem takeWhile_head_false {α : Type} (p : α → Bool) (c : α) (r : List α)
    (h : p c = false) : (c :: r).takeWhile p = [] := by
  simp [List.takeWhile_cons, h]

theorem dropWhile_head_false {α : Type} (p : α → Bool) (c : α) (r : List α)
    (h : p c = false) : (c :: r).dropWhile p = c :: r := by
  simp [List.dropWhile_cons, h]

theorem dropWhile_none_sat {α : Type} (p : α → Bool) (v : List α)
    (h : ∀ c ∈ v, p c = false) : v.dropWhile p = v := by
  cases v with
  | nil => rfl
  | cons c r => exact dropWhile_head_false p c r (h c (List.mem_cons_self c r))

/- ### The version-token characters -/

theorem versionToken_chars (M m : Nat) (p : Option Nat) :
    ∀ c ∈ versionToken M m p, (∃ d, d < 10 ∧ c = digitChar d) ∨ c = '.' := by
  cases p with
  | none =>
    intro c hc
    simp [versionToken] at hc
    rcases hc with hc | hc | hc
    · exact .inl (decChars_mem M c hc)
    · exact .inr hc
    · exact .inl (decChars_mem m c hc)
  | some k =>
    intro c hc
    simp [versionToken] at hc
    rcases hc with hc | hc | hc | hc | hc
    · exact .inl (decChars_mem M c hc)
    · exact .inr hc
    · exact .inl (decChars_mem m c hc)
    · exact .inr hc
    · exact .inl (decChars_mem k c hc)

theorem versionToken_toLower (M m : Nat) (p : Option Nat) :
    ∀ c ∈ versionToken M m p, Char.toLower c = c := by
  intro c hc
  rcases versionToken_chars M m p c hc with ⟨d, hd, rfl⟩ | rfl
  · exact (digitChar_facts d hd).1
  · decide

theorem versionToken_not_ws (M m : Nat) (p : Option Nat) :
    ∀ c ∈ versionToken M m p, c.isWhitespace = false := by
  intro c hc
  rcases versionToken_chars M m p c hc with ⟨d, hd, rfl⟩ | rfl
  · exact (digitChar_facts d hd).2.1
  · decide

/- ### Behaviour of the PEP 440 parser on well-formed version tokens -/

theorem stripWs_id (v : List Char) (h : ∀ c ∈ v, c.isWhitespace = false) :
    stripWs v = v := by
  rw [stripWs, dropWhile_none_sat _ v h,
    dropWhile_none_sat _ v.reverse (fun c hc => h c (List.mem_reverse.mp hc)),
    List.reverse_reverse]

theorem dropV_versionToken (M m : Nat) (p : Option Nat) :
    dropV (versionToken M m p) = versionToken M m p := by
  obtain ⟨d, t, hM⟩ := List.exists_cons_of_ne_nil (decChars_ne_nil M)
  obtain ⟨dd, hdd, hd⟩ := decChars_mem M d (hM ▸ List.mem_cons_self d t)
  have hv : (d == 'v') = false := by
    rw [hd]
    exact (digitChar_facts dd hdd).2.2
  cases p <;>
    · simp only [versionToken]
      rw [hM]
      simp [dropV, hv]

theorem takeWhile_digit_versionToken (M m : Nat) (p : Option Nat) :
    (versionToken M m p).takeWhile Char.isDigit = decChars M := by
  cases p <;>
    · simp only [versionToken]
      rw [takeWhile_append_all _ _ _ (decChars_isDigit M),
        takeWhile_head_false _ _ _ (by decide)]
      simp

theorem dropWhile_digit_versionToken (M m : Nat) (p : Option Nat) :
    (versionToken M m p).dropWhile Char.isDigit =
      '.' :: (match p with
              | none => decChars m
              | some k => decChars m ++ '.' :: decChars k) := by
  cases p <;>
    · simp only [versionToken]
      rw [dropWhile_append_all _ _ _ (decChars_isDigit M)]
      exact dropWhile_head_false _ _ _ (by decide)

theorem dropEpoch_versionToken (M m : Nat) (p : Option Nat) :
    dropEpoch (versionToken M m p) = versionToken M m p := by
  have hdw := dropWhile_digit_versionToken M m p
  simp [dropEpoch, hdw]

theorem parseDotGroupsF_nil (f : Nat) : parseDotGroupsF f [] = ([], []) := by
  cases f <;> rfl

theorem parseDotGroupsF_single (m : Nat) (f : Nat) (hf : 1 ≤ f) :
    parseDotGroupsF f ('.' :: decChars m) = ([m], []) := by
  obtain ⟨g, rfl⟩ : ∃ g, f = g + 1 := ⟨f - 1, by omega⟩
  have ht := takeWhile_all_true Char.isDigit (decChars m) (decChars_isDigit m)
  have hd := dropWhile_all_true Char.isDigit (decChars m) (decChars_isDigit m)
  simp [parseDotGroupsF, ht, hd, decChars_ne_nil m, parseDotGroupsF_nil,
    digitsToNat_decChars]

theorem parseDotGroupsF_double (m k : Nat) (f : Nat) (hf : 2 ≤ f) :
    parseDotGroupsF f ('.' :: (decChars m ++ '.' :: decChars k)) = ([m, k], []) := by
  obtain ⟨g, rfl⟩ : ∃ g, f = g + 1 := ⟨f - 1, by omega⟩
  have ht : (decChars m ++ '.' :: decChars k).takeWhile Char.isDigit = decChars m := by
    rw [takeWhile_append_all _ _ _ (decChars_isDigit m),
      takeWhile_head_false _ _ _ (by decide)]
    simp
  have hd : (decChars m ++ '.' :: decChars k).dropWhile Char.isDigit =
      '.' :: decChars k := by
    rw [dropWhile_append_all _ _ _ (decChars_isDigit m)]
    exact dropWhile_head_false _ _ _ (by decide)
  have hs := parseDotGroupsF_single k g (by omega)
  simp [parseDotGroupsF, ht, hd, decChars_ne_nil m, hs, digitsToNat_decChars]

theorem pep440Parse_versionToken (M m : Nat) (p : Option Nat) :
    pep440Parse (versionToken M m p) =
      some (M :: m :: (match p with | none => [] | some k => [k])) := by
  have hlow := list_map_self Char.toLower (versionToken M m p) (versionToken_toLower M m p)
  have hws := stripWs_id (versionToken M m p) (versionToken_not_ws M m p)
  have hdv := dropV_versionToken M m p
  have hde := dropEpoch_versionToken M m p
  have htw := takeWhile_digit_versionToken M m p
  have hdw := dropWhile_digit_versionToken M m p
  simp only [pep440Parse]
  rw [hlow, hws, hdv, hde, htw, hdw]
  cases p with
  | none =>
    have hpdg : parseDotGroups ('.' :: decChars m) = ([m], []) := by
      unfold parseDotGroups
      refine parseDotGroupsF_single m _ ?_
      simp only [List.length_cons]
      omega
    simp [decChars_ne_nil M, hpdg, digitsToNat_decChars, parseOptGroup, parsePost,
      parseLocal]
  | some k =>
    have hpdg : parseDotGroups ('.' :: (decChars m ++ '.' :: decChars k)) = ([m, k], []) := by
      unfold parseDotGroups
      refine parseDotGroupsF_double m k _ ?_
      simp only [List.length_cons, List.length_append]
      omega
    simp [decChars_ne_nil M, hpdg, digitsToNat_decChars, parseOptGroup, parsePost,
      parseLocal]

/- ### The two substitutions on a whole constraint string -/

theorem sub1S_nil (b : Bool) : sub1S b [] = [] := rfl

theorem sub2S_nil (b : Bool) : sub2S b [] = [] := rfl

theorem sub1S_false_op (o : CompOp) (d : Char) (t : List Char) (hd : isVerChar d = true) :
    sub1S false (opChars o ++ d :: t) = sub1S false (d :: t) := by
  obtain ⟨_, _, _, h4⟩ := isVerChar_elim hd
  cases o <;> simp [opChars, sub1S, h4]

theorem sub1_token (o : CompOp) (v rest : List Char)
    (hv : ∀ c ∈ v, isVerChar c = true) (hne : v ≠ []) :
    sub1S false (opChars o ++ (v ++ rest)) = v ++ sub1S false rest := by
  obtain ⟨d, t, rfl⟩ := List.exists_cons_of_ne_nil hne
  rw [List.cons_append, sub1S_false_op o d (t ++ rest) (hv d (List.mem_cons_self d t)),
    ← List.cons_append, sub1S_false_verpass (d :: t) rest hv]

theorem sub1_clause (o1 : CompOp) (M m : Nat) (p : Option Nat) :
    sub1S false (clauseChars o1 M m p) = versionToken M m p := by
  have h := sub1_token o1 (versionToken M m p) [] (versionToken_ver M m p)
    (versionToken_ne_nil M m p)
  simpa [clauseChars, sub1S_nil] using h

theorem sub1_two_clauses (o1 : CompOp) (M m : Nat) (p : Option Nat)
    (o2 : CompOp) (M2 m2 : Nat) (p2 : Option Nat) :
    sub1S false (clauseChars o1 M m p ++ ',' :: clauseChars o2 M2 m2 p2) =
      versionToken M m p ++ ',' :: versionToken M2 m2 p2 := by
  rw [clauseChars, List.append_assoc,
    sub1_token o1 _ _ (versionToken_ver M m p) (versionToken_ne_nil M m p)]
  congr 1
  have inner : sub1S false (opChars o2 ++ versionToken M2 m2 p2) = versionToken M2 m2 p2 := by
    have h := sub1_token o2 (versionToken M2 m2 p2) [] (versionToken_ver M2 m2 p2)
      (versionToken_ne_nil M2 m2 p2)
    simpa [sub1S_nil] using h
  cases o2 <;>
    · simp only [opChars, List.cons_append, List.nil_append, clauseChars] at inner ⊢
      rw [sub1S_false_comma_nonver _ _ (by decide), inner]

theorem sub2_token (v : List Char) (hv : ∀ c ∈ v, isVerChar c = true) :
    sub2S false v = v := by
  have h := sub2S_false_verpass v [] hv
  simpa [sub2S_nil] using h

theorem sub2_two_tokens (v1 v2 : List Char)
    (h1 : ∀ c ∈ v1, isVerChar c = true) (h2 : ∀ c ∈ v2, isVerChar c = true)
    (hne2 : v2 ≠ []) :
    sub2S false (v1 ++ ',' :: v2) = v1 := by
  rw [sub2S_false_verpass v1 _ h1]
  obtain ⟨d, t, rfl⟩ := List.exists_cons_of_ne_nil hne2
  rw [sub2S_false_comma_ver d t (h2 d (List.mem_cons_self d t))]
  have h := sub2S_true_verdrop (d :: t) [] h2
  simp only [List.append_nil] at h
  simp [h, sub2S]

/-- The normalization of line 243-245 on any well-formed constraint string:
  the result is the `"major.minor"` of the FIRST clause. -/
theorem normalize_constraint_eq (o1 : CompOp) (M m : Nat) (p : Option Nat)
    (sc : Option (CompOp × Nat × Nat × Option Nat)) :
    ansible_minor_version (constraintString o1 M m p sc) =
      some (decStr M ++ "." ++ decStr m) := by
  cases sc with
  | none =>
    have h1 : sub1 (constraintString o1 M m p none).data = versionToken M m p :=
      sub1_clause o1 M m p
    have h2 : sub2 (versionToken M m p) = versionToken M m p :=
      sub2_token _ (versionToken_ver M m p)
    unfold ansible_minor_version
    rw [h1, h2, pep440Parse_versionToken]
    cases p <;> simp [List.getD]
  | some q =>
    obtain ⟨o2, M2, m2, p2⟩ := q
    have h1 : sub1 (constraintString o1 M m p (some (o2, M2, m2, p2))).data =
        versionToken M m p ++ ',' :: versionToken M2 m2 p2 :=
      sub1_two_clauses o1 M m p o2 M2 m2 p2
    have h2 : sub2 (versionToken M m p ++ ',' :: versionToken M2 m2 p2) =
        versionToken M m p :=
      sub2_two_tokens _ _ (versionToken_ver M m p) (versionToken_ver M2 m2 p2)
        (versionToken_ne_nil M2 m2 p2)
    unfold ansible_minor_version
    rw [h1, h2, pep440Parse_versionToken]
    cases p <;> simp [List.getD]

/-- Claim C2: for every constraint string of the form
  `op1 major.minor[.patch][,op2 major2.minor2[.patch2]]` with the operators in
  `>=`, `<=`, `>`, `<`, the normalization of line 243-245 returns
  `"major.minor"` of the FIRST clause; consequently any two constraint strings
  whose first clause has the same `(major, minor)` pair map to the same bucket
  key. -/
theorem c2_normalize_first_clause (o1 : CompOp) (M m : Nat) (p : Option Nat)
    (sc : Option (CompOp × Nat × Nat × Option Nat)) :
    ansible_minor_version (constraintString o1 M m p sc) =
        some (decStr M ++ "." ++ decStr m) ∧
      ∀ (o1' : CompOp) (p' : Option Nat) (sc' : Option (CompOp × Nat × Nat × Option Nat)),
        ansible_minor_version (constraintString o1' M m p' sc') =
          ansible_minor_version (constraintString o1 M m p sc) := by
  refine ⟨normalize_constraint_eq o1 M m p sc, ?_⟩
  intro o1' p' sc'
  rw [normalize_constraint_eq, normalize_constraint_eq]

/-- Claim C3 counterexample: the spec maps the inputs `">=2.10"`,
  `">=2.9,<2.17"`, `"2.9.0"` to the outputs `"2.9"`, `"2.17"`, `"2.9"`
  "respectively", but the code normalizes `">=2.10"` to `"2.10"` (not
  `"2.9"`) and `">=2.9,<2.17"` to `"2.9"` (not `"2.17"`). -/
theorem c3_counterexample :
    ansible_minor_version ">=2.10" ≠ some "2.9" ∧
    ansible_minor_version ">=2.9,<2.17" ≠ some "2.17" := by
  decide

/-- Claim C3 as amended: normalizing `">=2.10"`, `">=2.9,<2.17"` and
  `"2.9.0"` yields `"2.10"`, `"2.9"` and `"2.9"` respectively (the spec's
  listed outputs are misaligned with its inputs; the code follows its own
  first-clause rule). -/
theorem c3_amended_examples :
    ansible_minor_version ">=2.10" = some "2.10" ∧
    ansible_minor_version ">=2.9,<2.17" = some "2.9" ∧
    ansible_minor_version "2.9.0" = some "2.9" := by
  decide

/-- Claim C6 counterexample: the input `"2.9rc1"` passes through the two
  substitutions unchanged and does not reduce to a valid dotted-numeric
  version, yet normalization does not fail: `packaging` accepts the PEP 440
  pre-release form, and the record is silently bucketed under `"2.9"`. -/
theorem c6_counterexample :
    specDottedNumeric (sub2 (sub1 ("2.9rc1").data)) = false ∧
    ansible_minor_version "2.9rc1" = some "2.9" := by
  decide

/-- Claim C6 as amended: normalization fails (the uncaught `InvalidVersion`
  exception of line 243, modelled by `none` — never a silently returned
  default bucket key) exactly when the stripped remainder is rejected by the
  PEP 440 parser; that validity notion is wider than dotted-numeric, so
  forms such as `"2.9rc1"` or `"v2.9"` are accepted and bucketed by their
  release's major.minor, while `"latest"` and `""` still fail. -/
theorem c6_amended_parse_failure :
    (∀ s : String,
        ansible_minor_version s = none ↔ pep440Parse (sub2 (sub1 s.data)) = none) ∧
    ansible_minor_version "latest" = none ∧
    ansible_minor_version "" = none ∧
    ansible_minor_version "v2.9" = some "2.9" := by
  refine ⟨fun s => ?_, by decide, by decide, by decide⟩
  unfold ansible_minor_version
  cases pep440Parse (sub2 (sub1 s.data)) <;> simp

/-- Claim C1 (code bug evidence): whenever `query_api` receives an HTTP
  response — whatever its status code, 2xx or not — it returns the parsed
  body as a success value; no HTTP-error failure reporting the status code
  ever reaches the caller, contradicting the function's own docstring
  (`Raises: HTTPError ... RuntimeError`) and the spec's failure
  classification. -/
theorem c1_query_api_returns_body_on_any_status {β : Type} (status : Nat) (body : β) :
    query_api (some .GET) "/api/automation-hub/" (.received status body) = .ok body := by
  rfl

/-- Claim C4: for every channel walk over N pages linked by cursors
  `c0 → c1 → ... → cN = null`, the walk emits exactly the concatenation of
  each page's item list in page order then within-page order (no item
  dropped or duplicated), and the loop terminates exactly at the page whose
  next cursor is null (N fetches suffice). -/
theorem c4_walk_emits_concatenation {α : Type} (fetch : String → Option (Page α))
    (href : String) (pages : List (Page α)) (h : PageChain fetch href pages)
    (fuel : Nat) (hfuel : pages.length ≤ fuel) :
    walkPages fetch fuel href = some ((pages.map Page.data).flatten) := by
  induction h generalizing fuel with
  | last href p hfetch hnext =>
    cases fuel with
    | zero => simp at hfuel
    | succ fuel => simp [walkPages, hfetch, hnext]
  | step href p href2 ps hfetch hnext hchain ih =>
    cases fuel with
    | zero => simp at hfuel
    | succ fuel =>
      have hlen : ps.length ≤ fuel := by
        simpa [Nat.succ_le_succ_iff] using hfuel
      simp [walkPages, hfetch, hnext, ih fuel hlen]

theorem c4_walk_emits_concatenation_witness :
    walkPages fetchEx 2 "page0" = some [1, 2, 3] := by
  have hchain : PageChain fetchEx "page0" [⟨[1, 2], some "page1"⟩, ⟨[3], none⟩] :=
    PageChain.step "page0" ⟨[1, 2], some "page1"⟩ "page1" [⟨[3], none⟩]
      (by decide) rfl
      (PageChain.last "page1" ⟨[3], none⟩ (by decide) rfl)
  have h := c4_walk_emits_concatenation fetchEx "page0" _ hchain 2 (by decide)
  simpa using h

theorem totalCount_record (bs : List (String × List CollectionEntry))
    (key : String) (e : CollectionEntry) :
    totalCount (record bs key e) = totalCount bs + 1 := by
  induction bs with
  | nil => simp [record, totalCount]
  | cons p rest ih =>
    obtain ⟨k, es⟩ := p
    by_cases hk : k = key <;> simp [record, hk, totalCount] at ih ⊢ <;> omega

theorem bucket_record (bs : List (String × List CollectionEntry))
    (key q : String) (e : CollectionEntry) :
    bucket (record bs key e) q =
      if q = key then bucket bs key ++ [e] else bucket bs q := by
  induction bs with
  | nil =>
    by_cases hq : q = key
    · subst hq; simp [record, bucket]
    · have h2 : ¬ key = q := fun h => hq h.symm
      simp [record, bucket, hq, h2]
  | cons p rest ih =>
    obtain ⟨k, es⟩ := p
    by_cases hk : k = key
    · subst hk
      by_cases hq : q = k
      · subst hq; simp [record, bucket]
      · have h2 : ¬ k = q := fun h => hq h.symm
        simp [record, bucket, hq, h2]
    · by_cases hq2 : k = q
      · subst hq2
        have hq : ¬ k = key := hk
        simp [record, bucket, hk, hq]
      · by_cases hq : q = key
        · subst hq
          simp [record, bucket, hk, hq2, ih]
        · simp [record, bucket, hk, hq2, hq, ih]

theorem processRecords_fold (recs : List (String × CollectionEntry)) :
    ∀ bs : List (String × List CollectionEntry),
      totalCount (recs.foldl (fun bs r => record bs r.1 r.2) bs) =
          totalCount bs + recs.length ∧
        ∀ q, bucket (recs.foldl (fun bs r => record bs r.1 r.2) bs) q =
          bucket bs q ++ (recs.filter (fun r => r.1 == q)).map Prod.snd := by
  induction recs with
  | nil => intro bs; simp
  | cons r recs ih =>
    intro bs
    obtain ⟨ihc, ihb⟩ := ih (record bs r.1 r.2)
    refine ⟨?_, ?_⟩
    · simp only [List.foldl_cons] at ihc ⊢
      rw [ihc, totalCount_record]
      simp [Nat.add_assoc, Nat.add_comm 1]
    · intro q
      simp only [List.foldl_cons] at ihb ⊢
      rw [ihb q, bucket_record]
      by_cases hq : r.1 = q
      · simp [List.filter_cons, hq, beq_iff_eq]
      · have : ¬ q = r.1 := fun h => hq h.symm
        simp [List.filter_cons, hq, this, beq_iff_eq]

/-- Claim C5: after processing any sequence of records, the bucket map's
  total item count summed across all buckets equals the number of records
  processed, and within each bucket the entries appear in arrival order
  (each record appends to an existing bucket's list or creates the bucket
  with a one-element list). -/
theorem c5_aggregator_invariant (recs : List (String × CollectionEntry)) :
    totalCount (processRecords recs) = recs.length ∧
      ∀ q, bucket (processRecords recs) q =
        (recs.filter (fun r => r.1 == q)).map Prod.snd := by
  obtain ⟨hc, hb⟩ := processRecords_fold recs []
  refine ⟨by simpa [processRecords, totalCount] using hc, fun q => ?_⟩
  have h := hb q
  simpa [processRecords, bucket] using h

/-- Claim C7 counterexample: for the record with fqcn `a.b`, 3 downloads and
  runtime version `2.9`, the console line the program emits is not the bare
  `collection a.b (#3 downloads): -> 2.9` — `pprint` writes the repr of the
  f-string, so the line carries surrounding single quotes. -/
theorem c7_counterexample :
    pprintLine "a.b" 3 "2.9" ≠ "collection a.b (#3 downloads): -> 2.9" := by
  decide

/-- Claim C7 as amended: per processed record the program emits exactly one
  console line, consisting of `collection <fqcn> (#<download_count>
  downloads): -> <runtime_version>` wrapped in a pair of single quotes (the
  repr that `pprint` prints). -/
theorem c7_amended_quoted_line :
    (∀ rs : List (String × Nat × String), (emittedLines rs).length = rs.length) ∧
      ∀ (fqcn : String) (dc : Nat) (ver : String),
        pprintLine fqcn dc ver =
          singleQuote ++ ("collection " ++ fqcn ++ " (#" ++ decStr dc ++
            " downloads): -> " ++ ver) ++ singleQuote := by
  exact ⟨fun rs => List.length_map rs _, fun fqcn dc ver => rfl⟩

/-- Claim C8: when clearing is requested and the destination file does not
  exist, the removal is a no-op and the run proceeds without error; any
  removal failure other than file-not-found propagates. -/
theorem c8_clear_missing_is_noop :
    clearWorkbookStep (removeFile false) = .ok () ∧
      ∀ e : Nat, e ≠ ENOENT → clearWorkbookStep (.oserror e) = .error e := by
  refine ⟨rfl, fun e he => ?_⟩
  simp [clearWorkbookStep, he]

theorem c8_clear_missing_is_noop_witness :
    clearWorkbookStep (removeFile false) = .ok () ∧
      ((13 : Nat) ≠ ENOENT ∧ clearWorkbookStep (.oserror 13) = .error 13) :=
  ⟨c8_clear_missing_is_noop.1, by decide, c8_clear_missing_is_noop.2 13 (by decide)⟩

theorem dataCells_cols (rs : List RecordRow) :
    ∀ row : Nat, ((dataCells true row rs).map (fun c => c.1)).all (fun n => n ≤ 4) = true := by
  induction rs with
  | nil => intro row; simp [dataCells]
  | cons r rest ih =>
    intro row
    simp [dataCells, rowCells, List.all_eq_true] at ih ⊢
    exact fun c hc => ih (row + 1) c hc

/-- Claim C9: when authors are excluded (`ignore_authors` set) every written
  cell — header and data rows alike — lies in columns 1-4, never column 5;
  each data row writes exactly columns 1-4; and with zero records the sheet
  still consists of the header row (Collection Name, Repository, Ansible
  Version, Downloads). -/
theorem c9_four_columns_and_header :
    (∀ rs : List RecordRow,
        ((sheetCells true rs).map (fun c => c.1)).all (fun n => n ≤ 4) = true) ∧
      (∀ r : RecordRow, (rowCells true r).map Prod.fst = [1, 2, 3, 4]) ∧
      sheetCells true [] =
        [(1, 1, "Collection Name"), (2, 1, "Repository"),
         (3, 1, "Ansible Version"), (4, 1, "Downloads")] := by
  refine ⟨fun rs => ?_, fun r => by simp [rowCells], by simp [sheetCells, headerCells, dataCells]⟩
  have h := dataCells_cols rs 2
  simp [sheetCells, headerCells, List.all_eq_true] at h ⊢
  exact fun c hc => h c hc

/-- Claim C10: `--clear-workbook` (`store_true` with `default=True`) can only
  ever yield `True`, so whenever workbook output is enabled the program
  unconditionally attempts to remove the destination file first: clearing
  cannot be disabled through the public interface. -/
theorem c10_clear_always_enabled :
    (∀ flagPresent : Bool, clear_workbook flagPresent = true) ∧
      ∀ flagPresent : Bool, attemptsRemove true flagPresent = true := by
  refine ⟨fun fp => ?_, fun fp => ?_⟩ <;> cases fp <;> rfl

end AutomationHub
